import Mathlib

/-
Verification of the snapdiff snapshot diff engine.

The definitions below are a shallow embedding of the Go sources:
  internal/diff/diff.go   (compareRows, generateRowKey, rowsEqual,
                           extractPrimaryKey, filterIgnoredColumns, Run)
  cmd/snapdiff/assert.go  (runAssertCmd canonicalization, compareJSON)

Modelling conventions:
  - Go `map[string]T` values are embedded as association lists
    `List (String × T)` whose keys are unique; map assignment is `mapSet`
    (in-place overwrite of an existing key, else append), map lookup is
    `alookup`.  Go map iteration order is nondeterministic; the embedding
    exposes it by stating order-sensitive facts over `compareRowsOn`,
    which takes the materialized entry sequences of the two key maps.
  - Go `any` values produced by JSON/YAML decoding are embedded as the
    closed universe `Value` (null, bool, integer, float, string, array,
    object).  `reflect.DeepEqual` on this universe is structural deep
    equality, embedded as `Value.beq`.  Integers and floats are distinct
    dynamic types in Go, hence distinct constructors here; floats are
    carried as rationals (JSON numbers are finite decimals, NaN and
    infinities cannot occur in decoded snapshots).
  - `fmt.Sprintf("%v", v)` is embedded as `render`; `sort.Strings` as
    `sortStrings` (insertion sort by bytewise lexicographic order, which
    agrees with Go string order on the code points involved).
  - `encoding/json.Marshal` of the nested `map[string]any` payloads is
    embedded as `marshal` (objects serialized with keys sorted, exactly
    as Go marshals maps); string escaping is not modelled as no claim
    depends on it.
-/

set_option autoImplicit false

namespace Snapdiff

/-- Closed universe of dynamically typed row values, the embedding of the
Go `any` values decoded from JSON/YAML snapshot files. -/
inductive Value : Type where
  | nullV  : Value
  | boolV  : Bool → Value
  | intV   : Int → Value
  | floatV : Rat → Value
  | strV   : String → Value
  | arrV   : List Value → Value
  | objV   : List (String × Value) → Value

mutual
/-- Structural deep equality on values: the embedding of
`reflect.DeepEqual` restricted to the decoded value universe.  Two
numeric values of different dynamic types (`intV` vs `floatV`) are never
equal, exactly as `reflect.DeepEqual(int(1), float64(1))` is false. -/
def Value.beq : Value → Value → Bool
  | .nullV, .nullV => true
  | .boolV a, .boolV b => a == b
  | .intV a, .intV b => a == b
  | .floatV a, .floatV b => a == b
  | .strV a, .strV b => a == b
  | .arrV xs, .arrV ys => Value.beqArr xs ys
  | .objV xs, .objV ys => Value.beqObj xs ys
  | _, _ => false

/-- Deep equality on value arrays (elementwise, same length). -/
def Value.beqArr : List Value → List Value → Bool
  | [], [] => true
  | x :: xs, y :: ys => Value.beq x y && Value.beqArr xs ys
  | _, _ => false

/-- Deep equality on value objects (same fields in the same stored
order; Go map values reaching this point have a canonical entry set). -/
def Value.beqObj : List (String × Value) → List (String × Value) → Bool
  | [], [] => true
  | (k1, v1) :: xs, (k2, v2) :: ys => k1 == k2 && Value.beq v1 v2 && Value.beqObj xs ys
  | _, _ => false
end

/-- A row: the embedding of Go `map[string]any`, an association list from
column name to value.  Rows produced by the Go code have unique keys;
theorems that need this state it as a `Nodup` hypothesis on the keys. -/
abbrev Row : Type := List (String × Value)

/-- Lookup in an association list, the embedding of Go map indexing. -/
def alookup {β : Type} (k : String) : List (String × β) → Option β
  | [] => none
  | p :: rest => if p.1 = k then some p.2 else alookup k rest

/-- Keys of an association list. -/
def akeys {β : Type} (m : List (String × β)) : List String :=
  m.map Prod.fst

/-- Map assignment `m[k] = v`, the embedding of Go map writes: overwrite
an existing entry for `k` in place, otherwise append a new entry. -/
def mapSet {β : Type} (m : List (String × β)) (k : String) (v : β) : List (String × β) :=
  if (akeys m).contains k then
    m.map fun p => if p.1 = k then (k, v) else p
  else
    m ++ [(k, v)]

/-- Bytewise lexicographic order on strings, the order used by Go
`sort.Strings` (via the order on the underlying character lists). -/
def strLe (a b : String) : Prop := a.data ≤ b.data

instance : DecidableRel strLe := fun a b => inferInstanceAs (Decidable (a.data ≤ b.data))

/-- Sorting a list of strings lexicographically: the embedding of
`sort.Strings`. -/
def sortStrings (l : List String) : List String :=
  List.insertionSort strLe l

/-- Order on (key, payload) pairs comparing keys only, used to model the
sorted-key serialization of Go maps. -/
def fieldLe {β : Type} (p q : String × β) : Prop := strLe p.1 q.1

instance {β : Type} : DecidableRel (fieldLe (β := β)) :=
  fun p q => inferInstanceAs (Decidable (strLe p.1 q.1))

/-- Sorting (key, payload) pairs by key. -/
def sortFields {β : Type} (l : List (String × β)) : List (String × β) :=
  List.insertionSort fieldLe l

mutual
/-- Embedding of `fmt.Sprintf("%v", v)` on decoded values: the string
rendering used by `generateRowKey`.  Nested maps are rendered with
sorted keys as Go fmt does. -/
def render : Value → String
  | .nullV => "<nil>"
  | .boolV b => if b then "true" else "false"
  | .intV n => toString n
  | .floatV q => if q.den = 1 then toString q.num else toString q
  | .strV s => s
  | .arrV vs => "[" ++ String.intercalate " " (renderArr vs) ++ "]"
  | .objV fs => "map[" ++ String.intercalate " " ((sortFields (renderObj fs)).map Prod.snd) ++ "]"

/-- Renders each element of a value array. -/
def renderArr : List Value → List String
  | [] => []
  | v :: vs => render v :: renderArr vs

/-- Renders each field of a value object as (key, "key:value"). -/
def renderObj : List (String × Value) → List (String × String)
  | [] => []
  | (k, v) :: fs => (k, k ++ ":" ++ render v) :: renderObj fs
end

/-- Embedding of `generateRowKey` (internal/diff/diff.go): the identity
key of a row is the rendering of its `id` column when present, otherwise
the concatenation of `name:value;` fragments over all columns with names
sorted lexicographically. -/
def generateRowKey (row : Row) : String :=
  match alookup "id" row with
  | some id => render id
  | none =>
    (sortStrings (akeys row)).foldl
      (fun acc k => acc ++ k ++ ":" ++ (((alookup k row).map render).getD "") ++ ";") ""

/-- Embedding of `rowsEqual` (internal/diff/diff.go): every non-ignored
column of the first row must exist in the second with a deeply equal
value, and the second row must have no extra non-ignored column. -/
def rowsEqual (row1 row2 : Row) (ignoreColumns : List String) : Bool :=
  (row1.all fun p =>
    ignoreColumns.contains p.1 ||
      (match alookup p.1 row2 with
       | some v2 => Value.beq p.2 v2
       | none => false)) &&
  (row2.all fun p =>
    ignoreColumns.contains p.1 || (alookup p.1 row1).isSome)

/-- Embedding of `extractPrimaryKey` (internal/diff/diff.go): the `id`
column projection when present, else the whole row. -/
def extractPrimaryKey (row : Row) : Row :=
  match alookup "id" row with
  | some id => [("id", id)]
  | none => row

/-- Embedding of `filterIgnoredColumns` (internal/diff/diff.go): a copy
of the row with the ignored columns removed. -/
def filterIgnoredColumns (row : Row) (ignoreColumns : List String) : Row :=
  row.filter fun p => !(ignoreColumns.contains p.1)

/-- Embedding of the `UpdatedRow` struct. -/
structure UpdatedRow : Type where
  primaryKey : Row
  before : Row
  after : Row

/-- Embedding of the `TableDiff` struct. -/
structure TableDiff : Type where
  tableName : String
  inserted : List Row
  updated : List UpdatedRow
  deleted : List Row

/-- The key map built by the first two loops of `compareRows`: iterate
the rows in order and assign `m[generateRowKey(row)] = row`, so a later
row with the same key overwrites an earlier one (last write wins). -/
def buildKeyMap (rows : List Row) : List (String × Row) :=
  rows.foldl (fun m row => mapSet m (generateRowKey row) row) []

/-- Core of `compareRows`, parameterized by the materialized entry
sequences of the two key maps.  Go iterates `toMap` to collect inserted
rows and `fromMap` to collect deleted and updated rows; since Go map
iteration order is nondeterministic, order-sensitive facts are stated
against this function for an arbitrary enumeration of the maps. -/
def compareRowsOn (tableName : String) (fromMapL toMapL : List (String × Row))
    (ignoreColumns : List String) : TableDiff :=
  { tableName := tableName
    inserted := (toMapL.filter fun p => (alookup p.1 fromMapL).isNone).map Prod.snd
    deleted := (fromMapL.filter fun p => (alookup p.1 toMapL).isNone).map Prod.snd
    updated := fromMapL.filterMap fun p =>
      match alookup p.1 toMapL with
      | some toRow =>
        if rowsEqual p.2 toRow ignoreColumns then none
        else some { primaryKey := extractPrimaryKey p.2
                    before := filterIgnoredColumns p.2 ignoreColumns
                    after := filterIgnoredColumns toRow ignoreColumns }
      | none => none }

/-- Embedding of `compareRows` (internal/diff/diff.go): build the two
key maps and classify every key into inserted, deleted or updated. -/
def compareRows (tableName : String) (fromRows toRows : List Row)
    (ignoreColumns : List String) : TableDiff :=
  compareRowsOn tableName (buildKeyMap fromRows) (buildKeyMap toRows) ignoreColumns

/-- Specification of the updated bucket per identity key: the unique
UpdatedRow that `compareRows` emits for `key`, if any.  A key shared by
both maps whose rows are unequal yields exactly the record built from
the two matched rows; every other key yields nothing. -/
def updatedEntryOfKey (fromMapL toMapL : List (String × Row))
    (ignoreColumns : List String) (key : String) : Option UpdatedRow :=
  match alookup key fromMapL, alookup key toMapL with
  | some fromRow, some toRow =>
    if rowsEqual fromRow toRow ignoreColumns then none
    else some { primaryKey := extractPrimaryKey fromRow
                before := filterIgnoredColumns fromRow ignoreColumns
                after := filterIgnoredColumns toRow ignoreColumns }
  | _, _ => none

/-- A loaded snapshot, the embedding of what `storage.Storage` provides
to `diff.Run`: the list of table names present in the snapshot directory
(`ListSnapshotTables`) and the decoded rows per table (`LoadSnapshot`,
`none` when the snapshot file does not exist). -/
structure Snapshot : Type where
  tables : List String
  load : String → Option (List Row)

/-- Loop body of `diff.Run` (internal/diff/diff.go) for one table name:
load both sides treating a missing snapshot file as an empty collection,
diff them, and either record the TableDiff in the result map or skip the
table when `onlyChanged` is set and all three buckets are empty. -/
def runDiffStep (fromSnap toSnap : Snapshot) (ignoreColumns : List String) (onlyChanged : Bool)
    (acc : List (String × TableDiff)) (tableName : String) : List (String × TableDiff) :=
  let fromRows := (fromSnap.load tableName).getD []
  let toRows := (toSnap.load tableName).getD []
  let td := compareRows tableName fromRows toRows ignoreColumns
  if onlyChanged && td.inserted.isEmpty && td.updated.isEmpty && td.deleted.isEmpty then
    acc
  else
    mapSet acc tableName td

/-- Embedding of `diff.Run` (internal/diff/diff.go): resolve the table
set (the explicit filter if nonempty, else the sorted union of the table
names of the two snapshots) and fold `runDiffStep` over it starting from
an empty result map. -/
def runDiff (fromSnap toSnap : Snapshot) (tablesFilter ignoreColumns : List String)
    (onlyChanged : Bool) : List (String × TableDiff) :=
  let tables :=
    if tablesFilter.isEmpty then
      sortStrings ((fromSnap.tables ++ toSnap.tables).dedup)
    else tablesFilter
  tables.foldl (runDiffStep fromSnap toSnap ignoreColumns onlyChanged) []

mutual
/-- Embedding of `encoding/json.Marshal` on the decoded value universe:
objects are serialized with keys in sorted order (as Go marshals maps);
escaping of string contents is not modelled. -/
def marshal : Value → String
  | .nullV => "null"
  | .boolV b => if b then "true" else "false"
  | .intV n => toString n
  | .floatV q => if q.den = 1 then toString q.num else toString q
  | .strV s => "\"" ++ s ++ "\""
  | .arrV vs => "[" ++ String.intercalate "," (marshalArr vs) ++ "]"
  | .objV fs => "\x7b" ++ String.intercalate "," ((sortFields (marshalFields fs)).map Prod.snd) ++ "\x7d"

/-- Serializes each element of a JSON array. -/
def marshalArr : List Value → List String
  | [] => []
  | v :: vs => marshal v :: marshalArr vs

/-- Serializes each field of a JSON object as the pair of the key and
the quoted key-colon-value fragment. -/
def marshalFields : List (String × Value) → List (String × String)
  | [] => []
  | (k, v) :: fs => (k, "\"" ++ k ++ "\":" ++ marshal v) :: marshalFields fs
end

/-- A row as a JSON object value. -/
def rowToValue (r : Row) : Value := .objV r

/-- An UpdatedRow as the JSON object built by `runAssertCmd`. -/
def updatedRowToValue (u : UpdatedRow) : Value :=
  .objV [("primary_key", rowToValue u.primaryKey),
         ("before", rowToValue u.before),
         ("after", rowToValue u.after)]

/-- Embedding of the per-table canonicalization in `runAssertCmd`
(cmd/snapdiff/assert.go): the `inserted`, `updated` and `deleted` fields
are each present exactly when the corresponding bucket is nonempty. -/
def canonicalizeTable (td : TableDiff) : List (String × Value) :=
  (if td.inserted.isEmpty then [] else
    [("inserted", Value.arrV (td.inserted.map rowToValue))]) ++
  (if td.updated.isEmpty then [] else
    [("updated", Value.arrV (td.updated.map updatedRowToValue))]) ++
  (if td.deleted.isEmpty then [] else
    [("deleted", Value.arrV (td.deleted.map rowToValue))])

/-- Embedding of the `resultMap` canonicalization in `runAssertCmd`: a
table appears exactly when its canonicalized table map is nonempty. -/
def canonicalizeResult (tables : List (String × TableDiff)) : Value :=
  .objV (tables.foldl
    (fun acc p =>
      let tm := canonicalizeTable p.2
      if tm.isEmpty then acc else mapSet acc p.1 (Value.objV tm))
    [])

/-- Embedding of `compareJSON` (cmd/snapdiff/assert.go): serialize both
structures canonically and compare the serializations byte for byte. -/
def compareJSON (expected actual : Value) : Bool :=
  marshal expected == marshal actual

/-! Basic lemmas about association lists (`alookup`, `akeys`, `mapSet`). -/

theorem akeys_nil {β : Type} : akeys ([] : List (String × β)) = [] := rfl

theorem akeys_cons {β : Type} (p : String × β) (m : List (String × β)) :
    akeys (p :: m) = p.1 :: akeys m := rfl

theorem alookup_eq_none_iff {β : Type} (k : String) (m : List (String × β)) :
    alookup k m = none ↔ k ∉ akeys m := by
  induction m with
  | nil => simp [alookup, akeys]
  | cons p rest ih =>
    by_cases h : p.1 = k
    · simp [alookup, h, akeys_cons]
    · simp only [alookup, if_neg h, akeys_cons, List.mem_cons, ih]
      constructor
      · intro hk hor
        rcases hor with h1 | h2
        · exact h h1.symm
        · exact hk h2
      · intro hk h2
        exact hk (Or.inr h2)

theorem mem_akeys_of_alookup_eq_some {β : Type} {k : String} {m : List (String × β)} {v : β}
    (h : alookup k m = some v) : k ∈ akeys m := by
  by_contra hk
  rw [← alookup_eq_none_iff] at hk
  rw [h] at hk
  exact Option.noConfusion hk

theorem mem_of_alookup_eq_some {β : Type} {k : String} {m : List (String × β)} {v : β}
    (h : alookup k m = some v) : (k, v) ∈ m := by
  induction m with
  | nil => exact absurd h (by simp [alookup])
  | cons p rest ih =>
    by_cases hp : p.1 = k
    · simp only [alookup, if_pos hp] at h
      have hv : p.2 = v := by injection h
      have hpv : p = (k, v) := by
        obtain ⟨p1, p2⟩ := p
        simp only at hp hv
        rw [hp, hv]
      rw [← hpv]
      exact List.mem_cons_self p rest
    · simp only [alookup, if_neg hp] at h
      exact List.mem_cons_of_mem _ (ih h)

theorem alookup_eq_some_of_mem {β : Type} {k : String} {m : List (String × β)} {v : β}
    (hnd : (akeys m).Nodup) (hmem : (k, v) ∈ m) : alookup k m = some v := by
  induction m with
  | nil => exact absurd hmem (List.not_mem_nil _)
  | cons p rest ih =>
    rw [akeys_cons, List.nodup_cons] at hnd
    rcases List.mem_cons.mp hmem with h1 | h2
    · rw [← h1]
      simp [alookup]
    · have hk : p.1 ≠ k := by
        intro hpk
        apply hnd.1
        rw [hpk]
        exact List.mem_map_of_mem Prod.fst h2
      simp only [alookup, if_neg hk]
      exact ih hnd.2 h2

theorem alookup_isSome_iff {β : Type} (k : String) (m : List (String × β)) :
    (alookup k m).isSome = true ↔ k ∈ akeys m := by
  rw [Option.isSome_iff_ne_none]
  constructor
  · intro h
    by_contra hk
    exact h ((alookup_eq_none_iff k m).mpr hk)
  · intro h hn
    exact ((alookup_eq_none_iff k m).mp hn) h

theorem contains_iff_mem (l : List String) (s : String) :
    l.contains s = true ↔ s ∈ l := by
  simp

theorem akeys_mapSet {β : Type} (m : List (String × β)) (k : String) (v : β) :
    akeys (mapSet m k v) = if k ∈ akeys m then akeys m else akeys m ++ [k] := by
  unfold mapSet
  by_cases h : k ∈ akeys m
  · rw [if_pos ((contains_iff_mem _ _).mpr h), if_pos h]
    unfold akeys
    rw [List.map_map]
    apply List.map_congr_left
    intro p _
    simp only [Function.comp_apply]
    by_cases hp : p.1 = k
    · rw [if_pos hp, hp]
    · rw [if_neg hp]
  · rw [if_neg (fun hc => h ((contains_iff_mem _ _).mp hc)), if_neg h]
    simp [akeys]

theorem alookup_replace_of_ne {β : Type} {k k' : String} (hne : k' ≠ k)
    (m : List (String × β)) (v : β) :
    alookup k' (m.map fun p => if p.1 = k then (k, v) else p) = alookup k' m := by
  induction m with
  | nil => rfl
  | cons p rest ih =>
    by_cases hp : p.1 = k
    · simp only [List.map_cons, if_pos hp, alookup,
        if_neg (fun h : k = k' => hne h.symm), if_neg (fun h : p.1 = k' => hne (hp ▸ h).symm), ih]
    · simp only [List.map_cons, if_neg hp, alookup, ih]

theorem alookup_replace_self {β : Type} {k : String} {m : List (String × β)}
    (hk : k ∈ akeys m) (v : β) :
    alookup k (m.map fun p => if p.1 = k then (k, v) else p) = some v := by
  induction m with
  | nil => exact absurd hk (List.not_mem_nil _)
  | cons p rest ih =>
    by_cases hp : p.1 = k
    · simp [List.map_cons, if_pos hp, alookup]
    · rw [akeys_cons, List.mem_cons] at hk
      have hk2 : k ∈ akeys rest := hk.resolve_left (fun h => hp h.symm)
      simp only [List.map_cons, if_neg hp, alookup, if_neg hp, ih hk2]

theorem alookup_append_single_self {β : Type} {k : String} {m : List (String × β)}
    (hk : k ∉ akeys m) (v : β) : alookup k (m ++ [(k, v)]) = some v := by
  induction m with
  | nil => simp [alookup]
  | cons p rest ih =>
    rw [akeys_cons, List.mem_cons] at hk
    push_neg at hk
    simp only [List.cons_append, alookup, if_neg (fun h : p.1 = k => hk.1 h.symm)]
    exact ih hk.2

theorem alookup_append_single_of_ne {β : Type} {k k' : String} (hne : k' ≠ k)
    (m : List (String × β)) (v : β) : alookup k' (m ++ [(k, v)]) = alookup k' m := by
  induction m with
  | nil =>
    show (if k = k' then some v else alookup k' []) = alookup k' []
    rw [if_neg (fun h : k = k' => hne h.symm)]
  | cons p rest ih =>
    by_cases hp : p.1 = k'
    · simp only [List.cons_append, alookup, if_pos hp]
    · simp only [List.cons_append, alookup, if_neg hp]
      exact ih

theorem alookup_mapSet {β : Type} (m : List (String × β)) (k k' : String) (v : β) :
    alookup k' (mapSet m k v) = if k' = k then some v else alookup k' m := by
  unfold mapSet
  by_cases hc : k ∈ akeys m
  · rw [if_pos ((contains_iff_mem _ _).mpr hc)]
    by_cases hk' : k' = k
    · rw [if_pos hk', hk']
      exact alookup_replace_self hc v
    · rw [if_neg hk']
      exact alookup_replace_of_ne hk' m v
  · rw [if_neg (fun h => hc ((contains_iff_mem _ _).mp h))]
    by_cases hk' : k' = k
    · rw [if_pos hk', hk']
      exact alookup_append_single_self hc v
    · rw [if_neg hk']
      exact alookup_append_single_of_ne hk' m v

theorem nodup_akeys_mapSet {β : Type} {m : List (String × β)} (k : String) (v : β)
    (hnd : (akeys m).Nodup) : (akeys (mapSet m k v)).Nodup := by
  rw [akeys_mapSet]
  by_cases hk : k ∈ akeys m
  · rw [if_pos hk]; exact hnd
  · rw [if_neg hk]
    rw [List.nodup_append]
    refine ⟨hnd, List.nodup_singleton k, ?_⟩
    intro a ha hka
    rw [List.mem_singleton] at hka
    exact hk (hka ▸ ha)

theorem mem_mapSet {β : Type} {m : List (String × β)} {k : String} {v : β} {p : String × β}
    (hp : p ∈ mapSet m k v) : p = (k, v) ∨ p ∈ m := by
  unfold mapSet at hp
  by_cases hc : (akeys m).contains k
  · rw [if_pos hc] at hp
    obtain ⟨q, hq, hpq⟩ := List.mem_map.mp hp
    by_cases hqk : q.1 = k
    · rw [if_pos hqk] at hpq
      exact Or.inl hpq.symm
    · rw [if_neg hqk] at hpq
      exact Or.inr (hpq ▸ hq)
  · rw [if_neg hc] at hp
    rcases List.mem_append.mp hp with h | h
    · exact Or.inr h
    · exact Or.inl (List.mem_singleton.mp h)

/-! Lemmas about `buildKeyMap`. -/

theorem mem_akeys_mapSet {β : Type} (m : List (String × β)) (k0 k : String) (v : β) :
    k ∈ akeys (mapSet m k0 v) ↔ k ∈ akeys m ∨ k = k0 := by
  rw [akeys_mapSet]
  by_cases h : k0 ∈ akeys m
  · rw [if_pos h]
    constructor
    · exact Or.inl
    · rintro (hk | hk)
      · exact hk
      · exact hk ▸ h
  · rw [if_neg h]
    simp [List.mem_append]

theorem mem_foldl_keymap (rows : List Row) :
    ∀ (m : List (String × Row)) (p : String × Row),
      p ∈ rows.foldl (fun m row => mapSet m (generateRowKey row) row) m →
      p ∈ m ∨ (p.2 ∈ rows ∧ p.1 = generateRowKey p.2) := by
  induction rows with
  | nil => exact fun m p hp => Or.inl hp
  | cons r rs ih =>
    intro m p hp
    rcases ih (mapSet m (generateRowKey r) r) p hp with h | h
    · rcases mem_mapSet h with h1 | h1
      · right
        rw [h1]
        exact ⟨List.mem_cons_self r rs, rfl⟩
      · exact Or.inl h1
    · exact Or.inr ⟨List.mem_cons_of_mem r h.1, h.2⟩

theorem mem_buildKeyMap {rows : List Row} {p : String × Row} (hp : p ∈ buildKeyMap rows) :
    p.2 ∈ rows ∧ p.1 = generateRowKey p.2 := by
  rcases mem_foldl_keymap rows [] p hp with h | h
  · exact absurd h (List.not_mem_nil p)
  · exact h

theorem nodup_akeys_foldl_keymap (rows : List Row) :
    ∀ (m : List (String × Row)), (akeys m).Nodup →
      (akeys (rows.foldl (fun m row => mapSet m (generateRowKey row) row) m)).Nodup := by
  induction rows with
  | nil => exact fun m hm => hm
  | cons r rs ih =>
    intro m hm
    exact ih (mapSet m (generateRowKey r) r) (nodup_akeys_mapSet _ _ hm)

theorem nodup_akeys_buildKeyMap (rows : List Row) : (akeys (buildKeyMap rows)).Nodup :=
  nodup_akeys_foldl_keymap rows [] List.nodup_nil

theorem mem_akeys_foldl_keymap (rows : List Row) :
    ∀ (m : List (String × Row)) (k : String),
      k ∈ akeys (rows.foldl (fun m row => mapSet m (generateRowKey row) row) m) ↔
      k ∈ akeys m ∨ ∃ r ∈ rows, generateRowKey r = k := by
  induction rows with
  | nil => simp
  | cons r rs ih =>
    intro m k
    rw [List.foldl_cons, ih (mapSet m (generateRowKey r) r) k, mem_akeys_mapSet]
    constructor
    · rintro ((h | h) | h)
      · exact Or.inl h
      · exact Or.inr ⟨r, List.mem_cons_self r rs, h.symm⟩
      · obtain ⟨r', hr', hk⟩ := h
        exact Or.inr ⟨r', List.mem_cons_of_mem r hr', hk⟩
    · rintro (h | h)
      · exact Or.inl (Or.inl h)
      · obtain ⟨r', hr', hk⟩ := h
        rcases List.mem_cons.mp hr' with h1 | h1
        · exact Or.inl (Or.inr (h1 ▸ hk).symm)
        · exact Or.inr ⟨r', h1, hk⟩

theorem mem_akeys_buildKeyMap (rows : List Row) (k : String) :
    k ∈ akeys (buildKeyMap rows) ↔ ∃ r ∈ rows, generateRowKey r = k := by
  rw [buildKeyMap, mem_akeys_foldl_keymap rows [] k]
  simp [akeys]

theorem alookup_buildKeyMap_eq_none_iff (rows : List Row) (k : String) :
    alookup k (buildKeyMap rows) = none ↔ ∀ r ∈ rows, generateRowKey r ≠ k := by
  rw [alookup_eq_none_iff, mem_akeys_buildKeyMap]
  push_neg
  exact Iff.rfl

theorem alookup_buildKeyMap_some {rows : List Row} {k : String} {r : Row}
    (h : alookup k (buildKeyMap rows) = some r) :
    r ∈ rows ∧ generateRowKey r = k := by
  have := mem_buildKeyMap (mem_of_alookup_eq_some h)
  exact ⟨this.1, this.2.symm⟩

/-! Reflexivity of deep equality and lemmas about `rowsEqual`. -/

mutual
theorem Value.beq_refl : ∀ (v : Value), Value.beq v v = true
  | .nullV => rfl
  | .boolV a => by simp [Value.beq]
  | .intV a => by simp [Value.beq]
  | .floatV a => by simp [Value.beq]
  | .strV a => by simp [Value.beq]
  | .arrV xs => by
    rw [show Value.beq (.arrV xs) (.arrV xs) = Value.beqArr xs xs from rfl]
    exact Value.beqArr_refl xs
  | .objV xs => by
    rw [show Value.beq (.objV xs) (.objV xs) = Value.beqObj xs xs from rfl]
    exact Value.beqObj_refl xs

theorem Value.beqArr_refl : ∀ (xs : List Value), Value.beqArr xs xs = true
  | [] => rfl
  | x :: xs => by
    rw [show Value.beqArr (x :: xs) (x :: xs) = (Value.beq x x && Value.beqArr xs xs) from rfl]
    rw [Value.beq_refl x, Value.beqArr_refl xs]
    rfl

theorem Value.beqObj_refl : ∀ (xs : List (String × Value)), Value.beqObj xs xs = true
  | [] => rfl
  | (k, v) :: xs => by
    rw [show Value.beqObj ((k, v) :: xs) ((k, v) :: xs) =
        ((k == k) && Value.beq v v && Value.beqObj xs xs) from rfl]
    rw [Value.beq_refl v, Value.beqObj_refl xs]
    simp
end

theorem Value.ne_of_beq_eq_false {v w : Value} (h : Value.beq v w = false) : v ≠ w := by
  intro he
  rw [he, Value.beq_refl w] at h
  exact Bool.noConfusion h

theorem alookup_filterIgnoredColumns (row : Row) (ignoreColumns : List String) (c : String) :
    alookup c (filterIgnoredColumns row ignoreColumns) =
      if ignoreColumns.contains c then none else alookup c row := by
  induction row with
  | nil =>
    by_cases h : ignoreColumns.contains c <;> simp [filterIgnoredColumns, alookup, h]
  | cons p rest ih =>
    unfold filterIgnoredColumns at ih ⊢
    by_cases hp : ignoreColumns.contains p.1
    · rw [List.filter_cons_of_neg (by intro h; rw [hp] at h; exact Bool.noConfusion h)]
      by_cases hpc : p.1 = c
      · rw [ih, ← hpc, if_pos hp, if_pos hp]
      · rw [ih]
        by_cases hc : ignoreColumns.contains c
        · rw [if_pos hc, if_pos hc]
        · rw [if_neg hc, if_neg hc]
          simp only [alookup, if_neg hpc]
    · rw [List.filter_cons_of_pos (by
        cases h : ignoreColumns.contains p.1 with
        | false => rfl
        | true => exact absurd h hp)]
      by_cases hpc : p.1 = c
      · have hc : ignoreColumns.contains c = false := by rw [← hpc]; simpa using hp
        simp only [alookup, if_pos hpc, hc, Bool.false_eq_true, if_false]
      · simp only [alookup, if_neg hpc, ih]

theorem rowsEqual_refl (row : Row) (ignoreColumns : List String)
    (hnd : (akeys row).Nodup) : rowsEqual row row ignoreColumns = true := by
  unfold rowsEqual
  rw [Bool.and_eq_true]
  constructor
  · rw [List.all_eq_true]
    intro p hp
    rw [alookup_eq_some_of_mem hnd hp]
    simp [Value.beq_refl]
  · rw [List.all_eq_true]
    intro p hp
    rw [alookup_eq_some_of_mem hnd hp]
    simp

theorem rowsEqual_eq_false_of_diff {row1 row2 : Row} {ignoreColumns : List String}
    {c : String} {v1 v2 : Value}
    (hc : ignoreColumns.contains c = false)
    (h1 : alookup c row1 = some v1) (h2 : alookup c row2 = some v2)
    (hne : Value.beq v1 v2 = false) :
    rowsEqual row1 row2 ignoreColumns = false := by
  unfold rowsEqual
  have hmem : (c, v1) ∈ row1 := mem_of_alookup_eq_some h1
  have hall : (row1.all fun p =>
      ignoreColumns.contains p.1 ||
        (match alookup p.1 row2 with
         | some v2 => Value.beq p.2 v2
         | none => false)) = false := by
    rw [List.all_eq_false]
    refine ⟨(c, v1), hmem, ?_⟩
    simp only [hc, h2, hne, Bool.false_or]
    exact Bool.false_ne_true
  rw [hall, Bool.false_and]

theorem exists_diff_of_rowsEqual_eq_false {row1 row2 : Row} {ignoreColumns : List String}
    (h1 : (akeys row1).Nodup) (h2 : (akeys row2).Nodup)
    (hne : rowsEqual row1 row2 ignoreColumns = false) :
    ∃ c, ignoreColumns.contains c = false ∧ alookup c row1 ≠ alookup c row2 := by
  unfold rowsEqual at hne
  cases hA : (row1.all fun p =>
      ignoreColumns.contains p.1 ||
        (match alookup p.1 row2 with
         | some v2 => Value.beq p.2 v2
         | none => false)) with
  | false =>
    rw [List.all_eq_false] at hA
    obtain ⟨p, hp, hpred⟩ := hA
    rw [Bool.or_eq_true, not_or] at hpred
    have hci : ignoreColumns.contains p.1 = false := by
      cases hcv : ignoreColumns.contains p.1
      · rfl
      · exact absurd hcv hpred.1
    have hlk : alookup p.1 row1 = some p.2 := alookup_eq_some_of_mem h1 hp
    refine ⟨p.1, hci, ?_⟩
    rw [hlk]
    cases hlk2 : alookup p.1 row2 with
    | none => exact fun he => Option.noConfusion he
    | some v2 =>
      intro he
      have hv : p.2 = v2 := by injection he
      apply hpred.2
      rw [hlk2, ← hv]
      exact Value.beq_refl p.2
  | true =>
    rw [hA, Bool.true_and] at hne
    rw [List.all_eq_false] at hne
    obtain ⟨p, hp, hpred⟩ := hne
    rw [Bool.or_eq_true, not_or] at hpred
    have hci : ignoreColumns.contains p.1 = false := by
      cases hcv : ignoreColumns.contains p.1
      · rfl
      · exact absurd hcv hpred.1
    have hlk2 : alookup p.1 row2 = some p.2 := alookup_eq_some_of_mem h2 hp
    have hlk1 : alookup p.1 row1 = none := by
      cases hlk : alookup p.1 row1 with
      | none => rfl
      | some v =>
        exact absurd (by rw [hlk]; rfl) hpred.2
    refine ⟨p.1, hci, ?_⟩
    rw [hlk1, hlk2]
    exact fun he => Option.noConfusion he

/-! Facts about lexicographic string sorting (`sortStrings`). -/

theorem string_eq_of_data_eq {a b : String} (h : a.data = b.data) : a = b := by
  cases a
  cases b
  exact congrArg String.mk h

instance : IsTrans String strLe := ⟨fun _ _ _ hab hbc => le_trans hab hbc⟩

instance : IsTotal String strLe := ⟨fun a b => le_total a.data b.data⟩

instance : IsAntisymm String strLe :=
  ⟨fun _ _ hab hba => string_eq_of_data_eq (le_antisymm hab hba)⟩

theorem sortStrings_perm (l : List String) : (sortStrings l).Perm l :=
  List.perm_insertionSort strLe l

theorem sortStrings_sorted (l : List String) : List.Sorted strLe (sortStrings l) :=
  List.sorted_insertionSort strLe l

theorem sortStrings_eq_of_perm {l1 l2 : List String} (h : l1.Perm l2) :
    sortStrings l1 = sortStrings l2 :=
  List.eq_of_perm_of_sorted
    (((sortStrings_perm l1).trans h).trans (sortStrings_perm l2).symm)
    (sortStrings_sorted l1) (sortStrings_sorted l2)

/-! Structure of the buckets produced by `compareRowsOn`. -/

theorem compareRowsOn_tableName (t : String) (fm tm : List (String × Row)) (I : List String) :
    (compareRowsOn t fm tm I).tableName = t := rfl

theorem compareRowsOn_inserted (t : String) (fm tm : List (String × Row)) (I : List String) :
    (compareRowsOn t fm tm I).inserted =
      (tm.filter fun p => (alookup p.1 fm).isNone).map Prod.snd := rfl

theorem compareRowsOn_deleted (t : String) (fm tm : List (String × Row)) (I : List String) :
    (compareRowsOn t fm tm I).deleted =
      (fm.filter fun p => (alookup p.1 tm).isNone).map Prod.snd := rfl

theorem compareRowsOn_updated (t : String) (fm tm : List (String × Row)) (I : List String) :
    (compareRowsOn t fm tm I).updated =
      (fm.filterMap fun p =>
        match alookup p.1 tm with
        | some toRow =>
          if rowsEqual p.2 toRow I then none
          else some { primaryKey := extractPrimaryKey p.2
                      before := filterIgnoredColumns p.2 I
                      after := filterIgnoredColumns toRow I }
        | none => none) := rfl

theorem compareRowsOn_updated_eq_filterMap (t : String) (fm tm : List (String × Row))
    (I : List String) (hnd : (akeys fm).Nodup) :
    (compareRowsOn t fm tm I).updated = (akeys fm).filterMap (updatedEntryOfKey fm tm I) := by
  rw [compareRowsOn_updated]
  unfold akeys
  rw [List.filterMap_map]
  apply List.filterMap_congr
  intro p hp
  simp only [Function.comp_apply]
  unfold updatedEntryOfKey
  rw [alookup_eq_some_of_mem hnd hp]
  cases alookup p.1 tm <;> rfl

theorem mem_inserted_iff (t : String) (fm tm : List (String × Row)) (I : List String) (r : Row) :
    r ∈ (compareRowsOn t fm tm I).inserted ↔ ∃ k, (k, r) ∈ tm ∧ alookup k fm = none := by
  rw [compareRowsOn_inserted]
  constructor
  · intro h
    obtain ⟨p, hp, hpr⟩ := List.mem_map.mp h
    obtain ⟨hptm, hpf⟩ := List.mem_filter.mp hp
    refine ⟨p.1, ?_, Option.isNone_iff_eq_none.mp hpf⟩
    rw [show (p.1, r) = p from by rw [← hpr]]
    exact hptm
  · intro ⟨k, hk, hkf⟩
    apply List.mem_map.mpr
    refine ⟨(k, r), List.mem_filter.mpr ⟨hk, ?_⟩, rfl⟩
    rw [Option.isNone_iff_eq_none]
    exact hkf

theorem mem_deleted_iff (t : String) (fm tm : List (String × Row)) (I : List String) (r : Row) :
    r ∈ (compareRowsOn t fm tm I).deleted ↔ ∃ k, (k, r) ∈ fm ∧ alookup k tm = none := by
  rw [compareRowsOn_deleted]
  constructor
  · intro h
    obtain ⟨p, hp, hpr⟩ := List.mem_map.mp h
    obtain ⟨hpfm, hpt⟩ := List.mem_filter.mp hp
    refine ⟨p.1, ?_, Option.isNone_iff_eq_none.mp hpt⟩
    rw [show (p.1, r) = p from by rw [← hpr]]
    exact hpfm
  · intro ⟨k, hk, hkt⟩
    apply List.mem_map.mpr
    refine ⟨(k, r), List.mem_filter.mpr ⟨hk, ?_⟩, rfl⟩
    rw [Option.isNone_iff_eq_none]
    exact hkt

theorem updatedEntryOfKey_of_lookups {fm tm : List (String × Row)} {key : String}
    {fromRow toRow : Row} (I : List String)
    (hf : alookup key fm = some fromRow) (ht : alookup key tm = some toRow) :
    updatedEntryOfKey fm tm I key =
      if rowsEqual fromRow toRow I then none
      else some { primaryKey := extractPrimaryKey fromRow
                  before := filterIgnoredColumns fromRow I
                  after := filterIgnoredColumns toRow I } := by
  unfold updatedEntryOfKey
  rw [hf, ht]

theorem updatedEntryOfKey_of_from_none {fm tm : List (String × Row)} {key : String}
    (I : List String) (hf : alookup key fm = none) :
    updatedEntryOfKey fm tm I key = none := by
  unfold updatedEntryOfKey
  rw [hf]

theorem updatedEntryOfKey_of_to_none {fm tm : List (String × Row)} {key : String}
    (I : List String) (ht : alookup key tm = none) :
    updatedEntryOfKey fm tm I key = none := by
  unfold updatedEntryOfKey
  rw [ht]
  cases alookup key fm <;> rfl

theorem updatedEntryOfKey_isSome {fm tm : List (String × Row)} {key : String}
    {I : List String} (h : (updatedEntryOfKey fm tm I key).isSome = true) :
    (∃ fromRow, alookup key fm = some fromRow) ∧ (∃ toRow, alookup key tm = some toRow) := by
  constructor
  · cases hf : alookup key fm with
    | none => rw [updatedEntryOfKey_of_from_none I hf] at h; exact Bool.noConfusion h
    | some fr => exact ⟨fr, rfl⟩
  · cases ht : alookup key tm with
    | none => rw [updatedEntryOfKey_of_to_none I ht] at h; exact Bool.noConfusion h
    | some tr => exact ⟨tr, rfl⟩

/-! Permutation invariance: the buckets depend on the key maps only as
maps, not on the order their entries are enumerated in. -/

theorem alookup_of_perm {β : Type} {m1 m2 : List (String × β)} (h : m1.Perm m2)
    (hnd : (akeys m1).Nodup) (k : String) : alookup k m1 = alookup k m2 := by
  have hnd2 : (akeys m2).Nodup := ((h.map Prod.fst).nodup_iff).mp hnd
  cases hl : alookup k m1 with
  | none =>
    have hk : k ∉ akeys m2 := by
      intro hmem
      exact (alookup_eq_none_iff k m1).mp hl (((h.map Prod.fst).mem_iff).mpr hmem)
    exact ((alookup_eq_none_iff k m2).mpr hk).symm
  | some v =>
    exact (alookup_eq_some_of_mem hnd2 (h.mem_iff.mp (mem_of_alookup_eq_some hl))).symm

theorem compareRowsOn_perm (t : String) {fm1 fm2 tm1 tm2 : List (String × Row)}
    (I : List String) (hf : fm1.Perm fm2) (ht : tm1.Perm tm2)
    (hndf : (akeys fm1).Nodup) (hndt : (akeys tm1).Nodup) :
    ((compareRowsOn t fm1 tm1 I).inserted.Perm (compareRowsOn t fm2 tm2 I).inserted) ∧
    ((compareRowsOn t fm1 tm1 I).deleted.Perm (compareRowsOn t fm2 tm2 I).deleted) ∧
    ((compareRowsOn t fm1 tm1 I).updated.Perm (compareRowsOn t fm2 tm2 I).updated) := by
  have hlf : ∀ k, alookup k fm1 = alookup k fm2 := alookup_of_perm hf hndf
  have hlt : ∀ k, alookup k tm1 = alookup k tm2 := alookup_of_perm ht hndt
  refine ⟨?_, ?_, ?_⟩
  · rw [compareRowsOn_inserted, compareRowsOn_inserted]
    have heq : (tm2.filter fun p => (alookup p.1 fm1).isNone) =
        (tm2.filter fun p => (alookup p.1 fm2).isNone) :=
      List.filter_congr (fun p _ => by rw [hlf p.1])
    rw [← heq]
    exact (ht.filter _).map Prod.snd
  · rw [compareRowsOn_deleted, compareRowsOn_deleted]
    have heq : (fm2.filter fun p => (alookup p.1 tm1).isNone) =
        (fm2.filter fun p => (alookup p.1 tm2).isNone) :=
      List.filter_congr (fun p _ => by rw [hlt p.1])
    rw [← heq]
    exact (hf.filter _).map Prod.snd
  · rw [compareRowsOn_updated, compareRowsOn_updated]
    refine (hf.filterMap _).trans (List.Perm.of_eq (List.filterMap_congr fun p _ => ?_))
    rw [hlt p.1]

/-! Lemmas about the aggregator `runDiff`. -/

theorem compareRows_nil_nil (t : String) (I : List String) :
    compareRows t [] [] I = ⟨t, [], [], []⟩ := rfl

theorem alookup_runDiffStep_of_ne {fs ts : Snapshot} {I : List String} {oc : Bool}
    {t name : String} (hne : t ≠ name) (acc : List (String × TableDiff)) :
    alookup name (runDiffStep fs ts I oc acc t) = alookup name acc := by
  simp only [runDiffStep]
  split
  · rfl
  · rw [alookup_mapSet, if_neg (fun h => hne h.symm)]

theorem runDiffStep_of_missing (fs ts : Snapshot) (I : List String) {t : String}
    (hf : fs.load t = none) (ht : ts.load t = none) (acc : List (String × TableDiff)) :
    runDiffStep fs ts I true acc t = acc := by
  unfold runDiffStep
  rw [hf, ht]
  rfl

theorem alookup_foldl_runDiffStep_none (fs ts : Snapshot) (I : List String) (oc : Bool)
    (name : String) :
    ∀ (tables : List String) (acc : List (String × TableDiff)),
      alookup name acc = none →
      (∀ t ∈ tables, t ≠ name ∨
        ∀ acc2, runDiffStep fs ts I oc acc2 t = acc2) →
      alookup name (tables.foldl (runDiffStep fs ts I oc) acc) = none := by
  intro tables
  induction tables with
  | nil => exact fun acc hacc _ => hacc
  | cons t rest ih =>
    intro acc hacc h
    rw [List.foldl_cons]
    apply ih
    · rcases h t (List.mem_cons_self t rest) with hne | hskip
      · rw [alookup_runDiffStep_of_ne hne acc]
        exact hacc
      · rw [hskip acc]
        exact hacc
    · exact fun t' ht' => h t' (List.mem_cons_of_mem t ht')

theorem runDiff_empty_filter (fs ts : Snapshot) (I : List String) (oc : Bool) :
    runDiff fs ts [] I oc =
      (sortStrings ((fs.tables ++ ts.tables).dedup)).foldl
        (runDiffStep fs ts I oc) [] := rfl

theorem runDiff_explicit_filter (fs ts : Snapshot) {filt : List String}
    (hne : filt ≠ []) (I : List String) (oc : Bool) :
    runDiff fs ts filt I oc = filt.foldl (runDiffStep fs ts I oc) [] := by
  unfold runDiff
  rw [if_neg (by simpa [List.isEmpty_iff] using hne)]

/-! Lemmas about the assertion comparator. -/

theorem compareJSON_eq_true_iff (expected actual : Value) :
    compareJSON expected actual = true ↔ marshal expected = marshal actual := by
  simp [compareJSON]

theorem canonicalizeTable_inserted (td : TableDiff) :
    alookup "inserted" (canonicalizeTable td) =
      if td.inserted.isEmpty then none
      else some (Value.arrV (td.inserted.map rowToValue)) := by
  unfold canonicalizeTable
  by_cases h1 : td.inserted.isEmpty <;> by_cases h2 : td.updated.isEmpty <;>
    by_cases h3 : td.deleted.isEmpty <;>
    simp [h1, h2, h3, alookup]

theorem canonicalizeTable_updated (td : TableDiff) :
    alookup "updated" (canonicalizeTable td) =
      if td.updated.isEmpty then none
      else some (Value.arrV (td.updated.map updatedRowToValue)) := by
  unfold canonicalizeTable
  by_cases h1 : td.inserted.isEmpty <;> by_cases h2 : td.updated.isEmpty <;>
    by_cases h3 : td.deleted.isEmpty <;>
    simp [h1, h2, h3, alookup]

theorem canonicalizeTable_deleted (td : TableDiff) :
    alookup "deleted" (canonicalizeTable td) =
      if td.deleted.isEmpty then none
      else some (Value.arrV (td.deleted.map rowToValue)) := by
  unfold canonicalizeTable
  by_cases h1 : td.inserted.isEmpty <;> by_cases h2 : td.updated.isEmpty <;>
    by_cases h3 : td.deleted.isEmpty <;>
    simp [h1, h2, h3, alookup]

theorem canonicalizeTable_eq_nil_iff (td : TableDiff) :
    canonicalizeTable td = [] ↔
      td.inserted = [] ∧ td.updated = [] ∧ td.deleted = [] := by
  unfold canonicalizeTable
  by_cases h1 : td.inserted.isEmpty <;> by_cases h2 : td.updated.isEmpty <;>
    by_cases h3 : td.deleted.isEmpty <;>
    simp_all [List.isEmpty_iff]

theorem canonicalizeResult_of_all_empty {tds : List (String × TableDiff)}
    (h : ∀ p ∈ tds, canonicalizeTable p.2 = []) :
    canonicalizeResult tds = .objV [] := by
  unfold canonicalizeResult
  congr 1
  have haux : ∀ (l : List (String × TableDiff)) (acc : List (String × Value)),
      (∀ p ∈ l, canonicalizeTable p.2 = []) →
      (l.foldl
        (fun acc p =>
          let tm := canonicalizeTable p.2
          if tm.isEmpty then acc else mapSet acc p.1 (Value.objV tm)) acc) = acc := by
    intro l
    induction l with
    | nil => exact fun acc _ => rfl
    | cons p rest ih =>
      intro acc hl
      rw [List.foldl_cons]
      have hp : canonicalizeTable p.2 = [] := hl p (List.mem_cons_self p rest)
      have hstep : (let tm := canonicalizeTable p.2
          if tm.isEmpty then acc else mapSet acc p.1 (Value.objV tm)) = acc := by
        rw [hp]
        rfl
      rw [hstep]
      exact ih acc (fun q hq => hl q (List.mem_cons_of_mem p hq))
  exact haux tds [] h

/-! Sorted-key serialization is stable under reordering of object
fields with distinct keys. -/

instance {β : Type} : IsTrans (String × β) fieldLe :=
  ⟨fun _ _ _ hab hbc => le_trans (α := List Char) hab hbc⟩

instance {β : Type} : IsTotal (String × β) fieldLe :=
  ⟨fun a b => le_total a.1.data b.1.data⟩

theorem sortFields_perm {β : Type} (l : List (String × β)) : (sortFields l).Perm l :=
  List.perm_insertionSort fieldLe l

theorem sortFields_sorted {β : Type} (l : List (String × β)) :
    List.Sorted fieldLe (sortFields l) :=
  List.sorted_insertionSort fieldLe l

theorem sortFields_eq_of_perm {β : Type} {l1 l2 : List (String × β)}
    (h : l1.Perm l2) (hnd : (akeys l1).Nodup) : sortFields l1 = sortFields l2 := by
  have hperm : (sortFields l1).Perm (sortFields l2) :=
    ((sortFields_perm l1).trans h).trans (sortFields_perm l2).symm
  have hnd1 : (akeys (sortFields l1)).Nodup :=
    (((sortFields_perm l1).map Prod.fst).nodup_iff).mpr hnd
  have hnd2 : (akeys (sortFields l2)).Nodup :=
    ((hperm.map Prod.fst).nodup_iff).mp hnd1
  have hne1 : (sortFields l1).Pairwise (fun p q => p.1 ≠ q.1) :=
    List.pairwise_map.mp hnd1
  have hne2 : (sortFields l2).Pairwise (fun p q => p.1 ≠ q.1) :=
    List.pairwise_map.mp hnd2
  haveI : IsAntisymm (String × β) (fun p q => fieldLe p q ∧ p.1 ≠ q.1) :=
    ⟨fun a b h1 h2 => absurd (string_eq_of_data_eq (le_antisymm h1.1 h2.1)) h1.2⟩
  exact List.eq_of_perm_of_sorted hperm
    (List.Pairwise.and (sortFields_sorted l1) hne1)
    (List.Pairwise.and (sortFields_sorted l2) hne2)

theorem marshalFields_eq_map (fs : List (String × Value)) :
    marshalFields fs = fs.map fun p => (p.1, "\"" ++ p.1 ++ "\":" ++ marshal p.2) := by
  induction fs with
  | nil => rfl
  | cons p rest ih =>
    obtain ⟨k, v⟩ := p
    show (k, "\"" ++ k ++ "\":" ++ marshal v) :: marshalFields rest = _
    rw [ih]
    rfl

theorem akeys_marshalFields (fs : List (String × Value)) :
    akeys (marshalFields fs) = akeys fs := by
  rw [marshalFields_eq_map]
  unfold akeys
  rw [List.map_map]
  rfl

theorem marshal_objV_perm {fs1 fs2 : List (String × Value)} (h : fs1.Perm fs2)
    (hnd : (akeys fs1).Nodup) : marshal (.objV fs1) = marshal (.objV fs2) := by
  have e1 : marshal (.objV fs1) =
      "\x7b" ++ String.intercalate "," ((sortFields (marshalFields fs1)).map Prod.snd) ++ "\x7d" := rfl
  have e2 : marshal (.objV fs2) =
      "\x7b" ++ String.intercalate "," ((sortFields (marshalFields fs2)).map Prod.snd) ++ "\x7d" := rfl
  rw [e1, e2]
  have hsort : sortFields (marshalFields fs1) = sortFields (marshalFields fs2) := by
    apply sortFields_eq_of_perm
    · rw [marshalFields_eq_map, marshalFields_eq_map]
      exact h.map _
    · rw [akeys_marshalFields]
      exact hnd
  rw [hsort]

/-! String concatenation helpers used to restate `generateRowKey`. -/

theorem string_foldl_append_shift (l : List String) :
    ∀ (a b : String), l.foldl (· ++ ·) (a ++ b) = a ++ l.foldl (· ++ ·) b := by
  induction l with
  | nil => exact fun a b => rfl
  | cons s rest ih =>
    intro a b
    rw [List.foldl_cons, List.foldl_cons, String.append_assoc, ih]

theorem string_join_cons (s : String) (l : List String) :
    String.join (s :: l) = s ++ String.join l := by
  show l.foldl (fun r u => r ++ u) ("" ++ s) = s ++ String.join l
  have hs : ("" ++ s) = s ++ "" := by
    rw [String.append_empty]
    rfl
  rw [hs, string_foldl_append_shift]
  rfl

theorem foldl_append_eq_join (g : String → String) (l : List String) :
    ∀ (acc : String), l.foldl (fun a k => a ++ g k) acc = acc ++ String.join (l.map g) := by
  induction l with
  | nil =>
    intro acc
    rw [List.foldl_nil, List.map_nil]
    show acc = acc ++ ""
    rw [String.append_empty]
  | cons k rest ih =>
    intro acc
    rw [List.foldl_cons, List.map_cons, string_join_cons, ih (acc ++ g k), String.append_assoc]

/-! Claim theorems. -/

/-- C1: for every table name, ignore set I, and row collections, and for
each identity key present in both key maps with matched rows `fromRow`
and `toRow` (whose column names are unique, as Go map keys are): the
updated bucket is exactly the per-key specification `updatedEntryOfKey`
filter-mapped over the duplicate-free key list of the from map, so each
key contributes at most one UpdatedRow; a key with rows equal under the
comparator contributes none; a key with unequal rows contributes exactly
the UpdatedRow whose before and after are the two rows with all columns
in I removed, and before and after differ in at least one retained
column. -/
theorem claim1_updated_per_matched_key
    (t : String) (fromRows toRows : List Row) (I : List String)
    (key : String) (fromRow toRow : Row)
    (hf : alookup key (buildKeyMap fromRows) = some fromRow)
    (ht : alookup key (buildKeyMap toRows) = some toRow)
    (hndf : (akeys fromRow).Nodup) (hndt : (akeys toRow).Nodup) :
    ((compareRows t fromRows toRows I).updated =
      (akeys (buildKeyMap fromRows)).filterMap
        (updatedEntryOfKey (buildKeyMap fromRows) (buildKeyMap toRows) I)) ∧
    (akeys (buildKeyMap fromRows)).Nodup ∧
    (rowsEqual fromRow toRow I = true →
      updatedEntryOfKey (buildKeyMap fromRows) (buildKeyMap toRows) I key = none) ∧
    (rowsEqual fromRow toRow I = false →
      updatedEntryOfKey (buildKeyMap fromRows) (buildKeyMap toRows) I key =
        some { primaryKey := extractPrimaryKey fromRow
               before := filterIgnoredColumns fromRow I
               after := filterIgnoredColumns toRow I } ∧
      ∃ c, I.contains c = false ∧
        alookup c (filterIgnoredColumns fromRow I) ≠
          alookup c (filterIgnoredColumns toRow I)) := by
  refine ⟨compareRowsOn_updated_eq_filterMap t _ _ I (nodup_akeys_buildKeyMap fromRows),
    nodup_akeys_buildKeyMap fromRows, ?_, ?_⟩
  · intro heq
    rw [updatedEntryOfKey_of_lookups I hf ht, if_pos heq]
  · intro hne
    constructor
    · rw [updatedEntryOfKey_of_lookups I hf ht, if_neg (by rw [hne]; exact Bool.false_ne_true)]
    · obtain ⟨c, hc, hdiff⟩ := exists_diff_of_rowsEqual_eq_false hndf hndt hne
      refine ⟨c, hc, ?_⟩
      rw [alookup_filterIgnoredColumns, alookup_filterIgnoredColumns,
        if_neg (by rw [hc]; exact Bool.false_ne_true),
        if_neg (by rw [hc]; exact Bool.false_ne_true)]
      exact hdiff

/-- C1 witness: in the concrete scenario of spec section 8 the matched
key "1" with rows differing in the name column yields exactly the
expected UpdatedRow. -/
theorem claim1_witness :
    updatedEntryOfKey
        (buildKeyMap [[("id", Value.intV 1), ("name", Value.strV "a")]])
        (buildKeyMap [[("id", Value.intV 1), ("name", Value.strV "a2")]]) [] "1" =
      some { primaryKey := [("id", Value.intV 1)]
             before := [("id", Value.intV 1), ("name", Value.strV "a")]
             after := [("id", Value.intV 1), ("name", Value.strV "a2")] } :=
  ((claim1_updated_per_matched_key "users"
      [[("id", Value.intV 1), ("name", Value.strV "a")]]
      [[("id", Value.intV 1), ("name", Value.strV "a2")]] [] "1"
      [("id", Value.intV 1), ("name", Value.strV "a")]
      [("id", Value.intV 1), ("name", Value.strV "a2")]
      rfl rfl (by decide) (by decide)).2.2.2 rfl).1

/-- C2 counterexample: with two rows in `toRows` sharing the identity
key "1", the first row has a key absent from the (empty) from map but
does not appear in the inserted bucket — last write wins in the key map,
so only the second row is inserted.  This refutes the claim as stated,
which quantifies over every row of the collection. -/
theorem claim2_counterexample :
    ([("id", Value.intV 1), ("x", Value.intV 1)] : Row) ∈
      ([[("id", Value.intV 1), ("x", Value.intV 1)],
        [("id", Value.intV 1), ("x", Value.intV 2)]] : List Row) ∧
    alookup (generateRowKey [("id", Value.intV 1), ("x", Value.intV 1)])
      (buildKeyMap ([] : List Row)) = none ∧
    ([("id", Value.intV 1), ("x", Value.intV 1)] : Row) ∉
      (compareRows "t" []
        [[("id", Value.intV 1), ("x", Value.intV 1)],
         [("id", Value.intV 1), ("x", Value.intV 2)]] []).inserted := by
  refine ⟨List.mem_cons_self _ _, rfl, ?_⟩
  rw [show (compareRows "t" []
      [[("id", Value.intV 1), ("x", Value.intV 1)],
       [("id", Value.intV 1), ("x", Value.intV 2)]] []).inserted =
      [[("id", Value.intV 1), ("x", Value.intV 2)]] from rfl]
  intro h
  rw [List.mem_singleton] at h
  simp at h

/-- C2 (amended): for every key of the to map absent from the from map,
the row the to map associates to it (the last row of `toRows` with that
key) appears in the inserted bucket as the full row, is a member of
`toRows`, does not appear in the deleted bucket, and generates no
UpdatedRow; symmetrically for keys of the from map absent from the to
map and the deleted bucket. -/
theorem claim2_unmatched_rows
    (t : String) (fromRows toRows : List Row) (I : List String)
    (key : String) (r : Row) :
    (alookup key (buildKeyMap toRows) = some r →
     alookup key (buildKeyMap fromRows) = none →
      r ∈ toRows ∧
      r ∈ (compareRows t fromRows toRows I).inserted ∧
      r ∉ (compareRows t fromRows toRows I).deleted ∧
      updatedEntryOfKey (buildKeyMap fromRows) (buildKeyMap toRows) I key = none) ∧
    (alookup key (buildKeyMap fromRows) = some r →
     alookup key (buildKeyMap toRows) = none →
      r ∈ fromRows ∧
      r ∈ (compareRows t fromRows toRows I).deleted ∧
      r ∉ (compareRows t fromRows toRows I).inserted ∧
      updatedEntryOfKey (buildKeyMap fromRows) (buildKeyMap toRows) I key = none) := by
  constructor
  · intro ht hf
    refine ⟨(alookup_buildKeyMap_some ht).1, ?_, ?_, updatedEntryOfKey_of_from_none I hf⟩
    · exact (mem_inserted_iff t _ _ I r).mpr ⟨key, mem_of_alookup_eq_some ht, hf⟩
    · intro hdel
      obtain ⟨k, hk, _⟩ := (mem_deleted_iff t _ _ I r).mp hdel
      have h1 : k = generateRowKey r := (mem_buildKeyMap hk).2
      have h2 : key = generateRowKey r := (mem_buildKeyMap (mem_of_alookup_eq_some ht)).2
      have : key ∈ akeys (buildKeyMap fromRows) := by
        rw [h2, ← h1]
        exact List.mem_map_of_mem Prod.fst hk
      exact (alookup_eq_none_iff key _).mp hf this
  · intro hf ht
    refine ⟨(alookup_buildKeyMap_some hf).1, ?_, ?_, updatedEntryOfKey_of_to_none I ht⟩
    · exact (mem_deleted_iff t _ _ I r).mpr ⟨key, mem_of_alookup_eq_some hf, ht⟩
    · intro hins
      obtain ⟨k, hk, _⟩ := (mem_inserted_iff t _ _ I r).mp hins
      have h1 : k = generateRowKey r := (mem_buildKeyMap hk).2
      have h2 : key = generateRowKey r := (mem_buildKeyMap (mem_of_alookup_eq_some hf)).2
      have : key ∈ akeys (buildKeyMap toRows) := by
        rw [h2, ← h1]
        exact List.mem_map_of_mem Prod.fst hk
      exact (alookup_eq_none_iff key _).mp ht this

/-- C2 witness: a row only in `toRows` lands in inserted, a row only in
`fromRows` lands in deleted. -/
theorem claim2_witness :
    ([("id", Value.intV 3), ("name", Value.strV "c")] : Row) ∈
      (compareRows "users" [[("id", Value.intV 2)]]
        [[("id", Value.intV 3), ("name", Value.strV "c")]] []).inserted ∧
    ([("id", Value.intV 2)] : Row) ∈
      (compareRows "users" [[("id", Value.intV 2)]]
        [[("id", Value.intV 3), ("name", Value.strV "c")]] []).deleted :=
  ⟨((claim2_unmatched_rows "users" [[("id", Value.intV 2)]]
      [[("id", Value.intV 3), ("name", Value.strV "c")]] [] "3"
      [("id", Value.intV 3), ("name", Value.strV "c")]).1 rfl rfl).2.1,
   ((claim2_unmatched_rows "users" [[("id", Value.intV 2)]]
      [[("id", Value.intV 3), ("name", Value.strV "c")]] [] "2"
      [("id", Value.intV 2)]).2 rfl rfl).2.1⟩

/-- C3: in every TableDiff produced by compareRows, the identity keys of
the inserted rows are pairwise distinct, the identity keys of the
deleted rows are pairwise distinct, the updated bucket is the filterMap
of the per-key specification over the duplicate-free from-map key list
(so no key contributes two UpdatedRows), and the key sets of the three
buckets are pairwise disjoint. -/
theorem claim3_buckets_exclusive (t : String) (fromRows toRows : List Row) (I : List String) :
    ((compareRows t fromRows toRows I).inserted.map generateRowKey).Nodup ∧
    ((compareRows t fromRows toRows I).deleted.map generateRowKey).Nodup ∧
    ((akeys (buildKeyMap fromRows)).filter fun k =>
      (updatedEntryOfKey (buildKeyMap fromRows) (buildKeyMap toRows) I k).isSome).Nodup ∧
    ((compareRows t fromRows toRows I).updated =
      (akeys (buildKeyMap fromRows)).filterMap
        (updatedEntryOfKey (buildKeyMap fromRows) (buildKeyMap toRows) I)) ∧
    List.Disjoint ((compareRows t fromRows toRows I).inserted.map generateRowKey)
      ((compareRows t fromRows toRows I).deleted.map generateRowKey) ∧
    List.Disjoint ((compareRows t fromRows toRows I).inserted.map generateRowKey)
      ((akeys (buildKeyMap fromRows)).filter fun k =>
        (updatedEntryOfKey (buildKeyMap fromRows) (buildKeyMap toRows) I k).isSome) ∧
    List.Disjoint ((compareRows t fromRows toRows I).deleted.map generateRowKey)
      ((akeys (buildKeyMap fromRows)).filter fun k =>
        (updatedEntryOfKey (buildKeyMap fromRows) (buildKeyMap toRows) I k).isSome) := by
  have hins : (compareRows t fromRows toRows I).inserted.map generateRowKey =
      ((buildKeyMap toRows).filter fun p =>
        (alookup p.1 (buildKeyMap fromRows)).isNone).map Prod.fst := by
    rw [show (compareRows t fromRows toRows I).inserted =
        ((buildKeyMap toRows).filter fun p =>
          (alookup p.1 (buildKeyMap fromRows)).isNone).map Prod.snd from rfl]
    rw [List.map_map]
    apply List.map_congr_left
    intro p hp
    have hmem : p ∈ buildKeyMap toRows := List.mem_of_mem_filter hp
    exact (mem_buildKeyMap hmem).2.symm
  have hdel : (compareRows t fromRows toRows I).deleted.map generateRowKey =
      ((buildKeyMap fromRows).filter fun p =>
        (alookup p.1 (buildKeyMap toRows)).isNone).map Prod.fst := by
    rw [show (compareRows t fromRows toRows I).deleted =
        ((buildKeyMap fromRows).filter fun p =>
          (alookup p.1 (buildKeyMap toRows)).isNone).map Prod.snd from rfl]
    rw [List.map_map]
    apply List.map_congr_left
    intro p hp
    have hmem : p ∈ buildKeyMap fromRows := List.mem_of_mem_filter hp
    exact (mem_buildKeyMap hmem).2.symm
  have hinskey : ∀ k, k ∈ (compareRows t fromRows toRows I).inserted.map generateRowKey →
      alookup k (buildKeyMap fromRows) = none := by
    intro k hk
    rw [hins] at hk
    obtain ⟨p, hp, hpk⟩ := List.mem_map.mp hk
    obtain ⟨_, hflt⟩ := List.mem_filter.mp hp
    rw [← hpk]
    exact Option.isNone_iff_eq_none.mp hflt
  have hdelkey : ∀ k, k ∈ (compareRows t fromRows toRows I).deleted.map generateRowKey →
      k ∈ akeys (buildKeyMap fromRows) ∧ alookup k (buildKeyMap toRows) = none := by
    intro k hk
    rw [hdel] at hk
    obtain ⟨p, hp, hpk⟩ := List.mem_map.mp hk
    obtain ⟨hpm, hflt⟩ := List.mem_filter.mp hp
    constructor
    · rw [← hpk]
      exact List.mem_map_of_mem Prod.fst hpm
    · rw [← hpk]
      exact Option.isNone_iff_eq_none.mp hflt
  have hupdkey : ∀ k, k ∈ ((akeys (buildKeyMap fromRows)).filter fun k =>
      (updatedEntryOfKey (buildKeyMap fromRows) (buildKeyMap toRows) I k).isSome) →
      (∃ fr, alookup k (buildKeyMap fromRows) = some fr) ∧
      (∃ tr, alookup k (buildKeyMap toRows) = some tr) := by
    intro k hk
    obtain ⟨_, hflt⟩ := List.mem_filter.mp hk
    exact updatedEntryOfKey_isSome hflt
  refine ⟨?_, ?_, ?_, compareRowsOn_updated_eq_filterMap t _ _ I (nodup_akeys_buildKeyMap fromRows),
    ?_, ?_, ?_⟩
  · rw [hins]
    exact ((List.filter_sublist _).map Prod.fst).nodup (nodup_akeys_buildKeyMap toRows)
  · rw [hdel]
    exact ((List.filter_sublist _).map Prod.fst).nodup (nodup_akeys_buildKeyMap fromRows)
  · exact (List.filter_sublist _).nodup (nodup_akeys_buildKeyMap fromRows)
  · intro k hk1 hk2
    have h1 := hinskey k hk1
    have h2 := (hdelkey k hk2).1
    exact (alookup_eq_none_iff k _).mp h1 h2
  · intro k hk1 hk2
    have h1 := hinskey k hk1
    obtain ⟨⟨fr, hfr⟩, _⟩ := hupdkey k hk2
    rw [h1] at hfr
    exact Option.noConfusion hfr
  · intro k hk1 hk2
    have h1 := (hdelkey k hk1).2
    obtain ⟨_, ⟨tr, htr⟩⟩ := hupdkey k hk2
    rw [h1] at htr
    exact Option.noConfusion htr

/-- C3 witness: key disjointness at a concrete diff with one insert, one
delete and one update. -/
theorem claim3_witness :
    ((compareRows "users"
      [[("id", Value.intV 1), ("name", Value.strV "a")], [("id", Value.intV 2)]]
      [[("id", Value.intV 1), ("name", Value.strV "a2")], [("id", Value.intV 3)]]
      []).inserted.map generateRowKey).Nodup ∧
    List.Disjoint
      ((compareRows "users"
        [[("id", Value.intV 1), ("name", Value.strV "a")], [("id", Value.intV 2)]]
        [[("id", Value.intV 1), ("name", Value.strV "a2")], [("id", Value.intV 3)]]
        []).inserted.map generateRowKey)
      ((compareRows "users"
        [[("id", Value.intV 1), ("name", Value.strV "a")], [("id", Value.intV 2)]]
        [[("id", Value.intV 1), ("name", Value.strV "a2")], [("id", Value.intV 3)]]
        []).deleted.map generateRowKey) :=
  ⟨(claim3_buckets_exclusive "users"
      [[("id", Value.intV 1), ("name", Value.strV "a")], [("id", Value.intV 2)]]
      [[("id", Value.intV 1), ("name", Value.strV "a2")], [("id", Value.intV 3)]] []).1,
   (claim3_buckets_exclusive "users"
      [[("id", Value.intV 1), ("name", Value.strV "a")], [("id", Value.intV 2)]]
      [[("id", Value.intV 1), ("name", Value.strV "a2")], [("id", Value.intV 3)]] []).2.2.2.2.1⟩

/-- C4: diffing a row collection against itself with an empty ignore set
yields a TableDiff with empty inserted, updated and deleted buckets (the
rows have unique column names, as Go map keys are). -/
theorem claim4_self_diff_empty (t : String) (A : List Row)
    (h : ∀ r ∈ A, (akeys r).Nodup) :
    (compareRows t A A []).inserted = [] ∧
    (compareRows t A A []).updated = [] ∧
    (compareRows t A A []).deleted = [] := by
  unfold compareRows
  have hnd : (akeys (buildKeyMap A)).Nodup := nodup_akeys_buildKeyMap A
  have hself : ∀ p ∈ buildKeyMap A, alookup p.1 (buildKeyMap A) = some p.2 := by
    intro p hp
    apply alookup_eq_some_of_mem hnd
    rw [show (p.1, p.2) = p from rfl]
    exact hp
  refine ⟨?_, ?_, ?_⟩
  · rw [compareRowsOn_inserted]
    rw [List.filter_eq_nil_iff.mpr ?_]
    · rfl
    · intro p hp
      rw [hself p hp]
      exact fun hcon => Bool.noConfusion hcon
  · rw [compareRowsOn_updated]
    apply List.filterMap_eq_nil_iff.mpr
    intro p hp
    rw [hself p hp]
    have hr : rowsEqual p.2 p.2 [] = true :=
      rowsEqual_refl p.2 [] (h p.2 (mem_buildKeyMap hp).1)
    simp [hr]
  · rw [compareRowsOn_deleted]
    rw [List.filter_eq_nil_iff.mpr ?_]
    · rfl
    · intro p hp
      rw [hself p hp]
      exact fun hcon => Bool.noConfusion hcon

/-- C4 witness: a concrete two-row collection diffed against itself is
fully empty. -/
theorem claim4_witness :
    (compareRows "users"
      [[("id", Value.intV 1), ("name", Value.strV "a")], [("a", Value.strV "x")]]
      [[("id", Value.intV 1), ("name", Value.strV "a")], [("a", Value.strV "x")]]
      []).inserted = [] ∧
    (compareRows "users"
      [[("id", Value.intV 1), ("name", Value.strV "a")], [("a", Value.strV "x")]]
      [[("id", Value.intV 1), ("name", Value.strV "a")], [("a", Value.strV "x")]]
      []).updated = [] ∧
    (compareRows "users"
      [[("id", Value.intV 1), ("name", Value.strV "a")], [("a", Value.strV "x")]]
      [[("id", Value.intV 1), ("name", Value.strV "a")], [("a", Value.strV "x")]]
      []).deleted = [] :=
  claim4_self_diff_empty "users"
    [[("id", Value.intV 1), ("name", Value.strV "a")], [("a", Value.strV "x")]]
    (by
      intro r hr
      rcases List.mem_cons.mp hr with h1 | h1
      · rw [h1]; decide
      · rcases List.mem_singleton.mp h1 with h2
        rw [h2]; decide)

/-- C5: the identity key resolver returns the rendering of the id column
when present; otherwise the concatenation of "name:value;" fragments
over the lexicographically sorted column names, so two rows with the
same column multiset (unique names) get the same key independent of
column order; the empty row gets the empty key. -/
theorem claim5_row_identity_key :
    (∀ (r : Row) (id : Value), alookup "id" r = some id → generateRowKey r = render id) ∧
    (∀ r : Row, alookup "id" r = none →
      generateRowKey r = String.join ((sortStrings (akeys r)).map
        (fun k => k ++ ":" ++ (((alookup k r).map render).getD "") ++ ";"))) ∧
    (∀ r1 r2 : Row, r1.Perm r2 → (akeys r1).Nodup →
      generateRowKey r1 = generateRowKey r2) ∧
    generateRowKey ([] : Row) = "" := by
  refine ⟨?_, ?_, ?_, rfl⟩
  · intro r id h
    simp only [generateRowKey, h]
  · intro r h
    simp only [generateRowKey, h]
    have hfn : (fun (acc k : String) =>
        acc ++ k ++ ":" ++ (((alookup k r).map render).getD "") ++ ";") =
        (fun (acc k : String) =>
          acc ++ (k ++ ":" ++ (((alookup k r).map render).getD "") ++ ";")) := by
      funext acc k
      simp [String.append_assoc]
    rw [hfn, foldl_append_eq_join]
    rfl
  · intro r1 r2 hperm hnd
    have hlk : ∀ k, alookup k r1 = alookup k r2 := alookup_of_perm hperm hnd
    cases hm : alookup "id" r2 with
    | some id =>
      simp only [generateRowKey, hlk "id", hm]
    | none =>
      simp only [generateRowKey, hlk "id", hm]
      have hk : sortStrings (akeys r1) = sortStrings (akeys r2) :=
        sortStrings_eq_of_perm (hperm.map Prod.fst)
      rw [hk]
      have hfn : (fun (acc k : String) =>
          acc ++ k ++ ":" ++ (((alookup k r1).map render).getD "") ++ ";") =
          (fun (acc k : String) =>
            acc ++ k ++ ":" ++ (((alookup k r2).map render).getD "") ++ ";") := by
        funext acc k
        rw [hlk k]
      rw [hfn]

/-- C5 witness: an id row keys to the rendered id, and swapping the two
columns of an id-less row leaves its key unchanged. -/
theorem claim5_witness :
    generateRowKey [("id", Value.intV 7)] = render (Value.intV 7) ∧
    generateRowKey [("a", Value.intV 1), ("b", Value.intV 2)] =
      generateRowKey [("b", Value.intV 2), ("a", Value.intV 1)] :=
  ⟨claim5_row_identity_key.1 [("id", Value.intV 7)] (Value.intV 7) rfl,
   claim5_row_identity_key.2.2.1 [("a", Value.intV 1), ("b", Value.intV 2)]
     [("b", Value.intV 2), ("a", Value.intV 1)]
     (List.Perm.swap ("b", Value.intV 2) ("a", Value.intV 1) [])
     (by decide)⟩

/-- C6 counterexample: a row whose column a holds the string "1" and a
row whose column a holds the number 1 lack an id column and have deeply
unequal values, yet the rendering collision makes them share the
serialized key "a:1;", so compareRows emits an UpdatedRow for them
instead of a delete plus an insert — refuting the claim that keyless
value changes never produce an UpdatedRow. -/
theorem claim6_counterexample :
    alookup "id" ([("a", Value.strV "1")] : Row) = none ∧
    alookup "id" ([("a", Value.intV 1)] : Row) = none ∧
    Value.beq (Value.strV "1") (Value.intV 1) = false ∧
    generateRowKey [("a", Value.strV "1")] = generateRowKey [("a", Value.intV 1)] ∧
    (compareRows "t" [[("a", Value.strV "1")]] [[("a", Value.intV 1)]] []).updated ≠ [] := by
  refine ⟨rfl, rfl, rfl, rfl, ?_⟩
  rw [show (compareRows "t" [[("a", Value.strV "1")]] [[("a", Value.intV 1)]] []).updated =
      [{ primaryKey := [("a", Value.strV "1")]
         before := [("a", Value.strV "1")]
         after := [("a", Value.intV 1)] }] from rfl]
  exact List.cons_ne_nil _ _

/-- C6 (amended): for row collections whose rows lack an id column, a
value change manifests as a delete plus an insert — no UpdatedRow is
emitted — provided no two differing rows collide on their serialized
key; when the canonical serializations of two unequal rows coincide (a
rendering collision such as the string "1" versus the number 1), an
UpdatedRow is emitted for the colliding key instead. -/
theorem claim6_keyless_changes_are_delete_insert
    (t : String) (fromRows toRows : List Row) (I : List String)
    (_hnoid : ∀ r ∈ fromRows ++ toRows, alookup "id" r = none)
    (hnocol : ∀ fr ∈ fromRows, ∀ tr ∈ toRows,
      generateRowKey fr = generateRowKey tr → rowsEqual fr tr I = true) :
    (compareRows t fromRows toRows I).updated = [] := by
  unfold compareRows
  rw [compareRowsOn_updated]
  apply List.filterMap_eq_nil_iff.mpr
  intro p hp
  obtain ⟨hpfrom, hpkey⟩ := mem_buildKeyMap hp
  cases halk : alookup p.1 (buildKeyMap toRows) with
  | none => simp [halk]
  | some tr =>
    obtain ⟨htto, htkey⟩ := alookup_buildKeyMap_some halk
    have hre : rowsEqual p.2 tr I = true :=
      hnocol p.2 hpfrom tr htto (by rw [← hpkey, htkey])
    simp [halk, hre]

/-- C6 witness: keyless rows {a:1} versus {a:2} produce no UpdatedRow
(and by C2 they fall into deleted and inserted). -/
theorem claim6_witness :
    (compareRows "t" [[("a", Value.intV 1)]] [[("a", Value.intV 2)]] []).updated = [] :=
  claim6_keyless_changes_are_delete_insert "t"
    [[("a", Value.intV 1)]] [[("a", Value.intV 2)]] []
    (by
      intro r hr
      rcases List.mem_append.mp hr with h | h <;>
        · rw [List.mem_singleton.mp h]
          rfl)
    (by
      intro fr hfr tr htr hkey
      rw [List.mem_singleton.mp hfr, List.mem_singleton.mp htr] at hkey
      exact absurd hkey (by decide))

/-- C7 counterexample: a table name explicitly requested via the filter
but missing from both snapshots does get an entry in the result (an
empty TableDiff) when onlyChanged is false — refuting the claim that the
DiffResult contains no entry for such a table. -/
theorem claim7_counterexample :
    (Snapshot.mk [] (fun _ => none)).load "t" = none ∧
    alookup "t" (runDiff (Snapshot.mk [] (fun _ => none)) (Snapshot.mk [] (fun _ => none))
        ["t"] [] false) = some ⟨"t", [], [], []⟩ :=
  ⟨rfl, rfl⟩

/-- C7 (amended): for a table whose data is missing from both snapshots
no error is raised (absence is treated as an empty collection); with the
union-derived table set the table is never requested, so the DiffResult
has no entry for it; with an explicit filter it has no entry exactly
when only-changed filtering is on (with onlyChanged false it appears
with an empty TableDiff, as the counterexample shows). -/
theorem claim7_missing_table_absent (fs ts : Snapshot) (I : List String) (oc : Bool)
    (filt : List String) (name : String)
    (hf : fs.load name = none) (ht : ts.load name = none)
    (hft : name ∉ fs.tables) (htt : name ∉ ts.tables) :
    alookup name (runDiff fs ts [] I oc) = none ∧
    alookup name (runDiff fs ts filt I true) = none := by
  have hnotin : ∀ t ∈ sortStrings ((fs.tables ++ ts.tables).dedup), t ≠ name := by
    intro t htmem heq
    subst heq
    have h1 : t ∈ (fs.tables ++ ts.tables).dedup :=
      ((sortStrings_perm _).mem_iff).mp htmem
    rcases List.mem_append.mp (List.mem_dedup.mp h1) with h2 | h2
    · exact hft h2
    · exact htt h2
  have hunion : ∀ oc', alookup name (runDiff fs ts [] I oc') = none := by
    intro oc'
    rw [runDiff_empty_filter]
    apply alookup_foldl_runDiffStep_none fs ts I oc' name _ [] rfl
    intro t htm
    exact Or.inl (hnotin t htm)
  refine ⟨hunion oc, ?_⟩
  rcases eq_or_ne filt [] with hl | hl
  · rw [hl]
    exact hunion true
  · rw [runDiff_explicit_filter fs ts hl I true]
    apply alookup_foldl_runDiffStep_none fs ts I true name filt [] rfl
    intro t _
    by_cases heq : t = name
    · refine Or.inr fun acc2 => ?_
      rw [heq]
      exact runDiffStep_of_missing fs ts I hf ht acc2
    · exact Or.inl heq

/-- C7 witness: with a one-table snapshot pair, a name absent from both
sides is absent from the result both under the union table set and
under an explicit filter with only-changed on. -/
theorem claim7_witness :
    alookup "b" (runDiff
      (Snapshot.mk ["a"] (fun u => if u = "a" then some [[("id", Value.intV 1)]] else none))
      (Snapshot.mk ["a"] (fun u => if u = "a" then some [[("id", Value.intV 2)]] else none))
      [] [] false) = none ∧
    alookup "b" (runDiff
      (Snapshot.mk ["a"] (fun u => if u = "a" then some [[("id", Value.intV 1)]] else none))
      (Snapshot.mk ["a"] (fun u => if u = "a" then some [[("id", Value.intV 2)]] else none))
      ["b"] [] true) = none :=
  claim7_missing_table_absent
    (Snapshot.mk ["a"] (fun u => if u = "a" then some [[("id", Value.intV 1)]] else none))
    (Snapshot.mk ["a"] (fun u => if u = "a" then some [[("id", Value.intV 2)]] else none))
    [] false ["b"] "b" rfl rfl (by decide) (by decide)

/-- C8 counterexample: the key maps are Go maps, whose iteration order
is arbitrary; enumerating the same to-map in two different orders (the
two lists are permutations with duplicate-free keys) makes compareRows
emit the inserted rows in different sequence orders, and the assert
comparator then returns different verdicts against the same expected
payload — refuting bytewise determinism of the output sequences and the
assert verdict. -/
theorem claim8_counterexample :
    ([("1", [("id", Value.intV 1)]), ("2", [("id", Value.intV 2)])] :
        List (String × Row)).Perm
      [("2", [("id", Value.intV 2)]), ("1", [("id", Value.intV 1)])] ∧
    (akeys ([("1", [("id", Value.intV 1)]), ("2", [("id", Value.intV 2)])] :
        List (String × Row))).Nodup ∧
    (compareRowsOn "t" [] [("1", [("id", Value.intV 1)]), ("2", [("id", Value.intV 2)])]
        []).inserted ≠
      (compareRowsOn "t" [] [("2", [("id", Value.intV 2)]), ("1", [("id", Value.intV 1)])]
        []).inserted ∧
    compareJSON
      (canonicalizeResult [("t", compareRowsOn "t" []
        [("1", [("id", Value.intV 1)]), ("2", [("id", Value.intV 2)])] [])])
      (canonicalizeResult [("t", compareRowsOn "t" []
        [("1", [("id", Value.intV 1)]), ("2", [("id", Value.intV 2)])] [])]) = true ∧
    compareJSON
      (canonicalizeResult [("t", compareRowsOn "t" []
        [("1", [("id", Value.intV 1)]), ("2", [("id", Value.intV 2)])] [])])
      (canonicalizeResult [("t", compareRowsOn "t" []
        [("2", [("id", Value.intV 2)]), ("1", [("id", Value.intV 1)])] [])]) = false := by
  refine ⟨List.Perm.swap _ _ _, by decide, ?_, rfl, rfl⟩
  rw [show (compareRowsOn "t" [] [("1", [("id", Value.intV 1)]), ("2", [("id", Value.intV 2)])]
        []).inserted = [[("id", Value.intV 1)], [("id", Value.intV 2)]] from rfl]
  rw [show (compareRowsOn "t" [] [("2", [("id", Value.intV 2)]), ("1", [("id", Value.intV 1)])]
        []).inserted = [[("id", Value.intV 2)], [("id", Value.intV 1)]] from rfl]
  intro h
  simp at h

/-- C8 (amended): the diff computation is deterministic up to the
enumeration order of the two key maps: for any two enumerations of the
same maps (permutations with duplicate-free keys), the inserted, updated
and deleted buckets agree as multisets (they are permutations of each
other) and the table name is fixed; the sequence order within a bucket,
and hence the byte-level assert verdict on multi-entry buckets, depends
on the iteration order. -/
theorem claim8_deterministic_up_to_order (t : String)
    {fm1 fm2 tm1 tm2 : List (String × Row)} (I : List String)
    (hf : fm1.Perm fm2) (ht : tm1.Perm tm2)
    (hndf : (akeys fm1).Nodup) (hndt : (akeys tm1).Nodup) :
    ((compareRowsOn t fm1 tm1 I).inserted.Perm (compareRowsOn t fm2 tm2 I).inserted) ∧
    ((compareRowsOn t fm1 tm1 I).deleted.Perm (compareRowsOn t fm2 tm2 I).deleted) ∧
    ((compareRowsOn t fm1 tm1 I).updated.Perm (compareRowsOn t fm2 tm2 I).updated) ∧
    (compareRowsOn t fm1 tm1 I).tableName = (compareRowsOn t fm2 tm2 I).tableName := by
  have h := compareRowsOn_perm t I hf ht hndf hndt
  exact ⟨h.1, h.2.1, h.2.2, rfl⟩

/-- C8 witness: at the counterexample enumeration orders, the inserted
buckets are indeed permutations of each other. -/
theorem claim8_witness :
    (compareRowsOn "t" [] [("1", [("id", Value.intV 1)]), ("2", [("id", Value.intV 2)])]
        []).inserted.Perm
      (compareRowsOn "t" [] [("2", [("id", Value.intV 2)]), ("1", [("id", Value.intV 1)])]
        []).inserted :=
  (claim8_deterministic_up_to_order "t" []
    (List.Perm.refl []) (List.Perm.swap _ _ _) List.nodup_nil (by decide)).1

/-- C9: the assertion comparator returns equality exactly when the
canonical serializations agree byte for byte; the serialization is
stable under reordering of object fields with distinct keys (sorted key
order); the canonicalized table shape contains each of the inserted,
updated and deleted lists exactly when nonempty, a table is present only
when at least one list is nonempty, and an all-empty DiffResult
canonicalizes to the empty object and compares equal to the empty
payload. -/
theorem claim9_assert_canonicalization :
    (∀ expected actual : Value,
      compareJSON expected actual = true ↔ marshal expected = marshal actual) ∧
    (∀ fs1 fs2 : List (String × Value), fs1.Perm fs2 → (akeys fs1).Nodup →
      marshal (.objV fs1) = marshal (.objV fs2)) ∧
    (∀ td : TableDiff, alookup "inserted" (canonicalizeTable td) =
      if td.inserted.isEmpty then none
      else some (Value.arrV (td.inserted.map rowToValue))) ∧
    (∀ td : TableDiff, alookup "updated" (canonicalizeTable td) =
      if td.updated.isEmpty then none
      else some (Value.arrV (td.updated.map updatedRowToValue))) ∧
    (∀ td : TableDiff, alookup "deleted" (canonicalizeTable td) =
      if td.deleted.isEmpty then none
      else some (Value.arrV (td.deleted.map rowToValue))) ∧
    (∀ td : TableDiff, canonicalizeTable td = [] ↔
      td.inserted = [] ∧ td.updated = [] ∧ td.deleted = []) ∧
    (∀ tds : List (String × TableDiff), (∀ p ∈ tds, canonicalizeTable p.2 = []) →
      canonicalizeResult tds = .objV [] ∧
      compareJSON (.objV []) (canonicalizeResult tds) = true) := by
  refine ⟨compareJSON_eq_true_iff, fun fs1 fs2 h hnd => marshal_objV_perm h hnd,
    canonicalizeTable_inserted, canonicalizeTable_updated, canonicalizeTable_deleted,
    canonicalizeTable_eq_nil_iff, ?_⟩
  intro tds h
  refine ⟨canonicalizeResult_of_all_empty h, ?_⟩
  rw [canonicalizeResult_of_all_empty h]
  rfl

/-- C9 witness: an all-empty one-table DiffResult canonicalizes to the
empty object and compares equal to the empty expected payload, and the
serialization of a two-field object does not depend on field order. -/
theorem claim9_witness :
    compareJSON (.objV []) (canonicalizeResult [("t", ⟨"t", [], [], []⟩)]) = true ∧
    marshal (.objV [("b", Value.intV 2), ("a", Value.strV "x")]) =
      marshal (.objV [("a", Value.strV "x"), ("b", Value.intV 2)]) :=
  ⟨(claim9_assert_canonicalization.2.2.2.2.2.2 [("t", ⟨"t", [], [], []⟩)]
      (fun p hp => by
        rw [List.mem_singleton.mp hp]
        rfl)).2,
   claim9_assert_canonicalization.2.1 [("b", Value.intV 2), ("a", Value.strV "x")]
     [("a", Value.strV "x"), ("b", Value.intV 2)]
     (List.Perm.swap _ _ _) (by decide)⟩

/-- C10: deep equality is exact on dynamic types, so an integer and a
float carrying the same numeric value are never equal; consequently a
matched pair of rows whose only relevant difference is such a
representation change is unequal under the comparator and compareRows
emits the corresponding UpdatedRow for their key. -/
theorem claim10_numeric_representation_update
    (t : String) (fromRows toRows : List Row) (I : List String)
    (key c : String) (fromRow toRow : Row) (n : Int) (q : Rat)
    (hf : alookup key (buildKeyMap fromRows) = some fromRow)
    (ht : alookup key (buildKeyMap toRows) = some toRow)
    (hc : I.contains c = false)
    (h1 : alookup c fromRow = some (Value.intV n))
    (h2 : alookup c toRow = some (Value.floatV q)) :
    Value.beq (Value.intV n) (Value.floatV q) = false ∧
    rowsEqual fromRow toRow I = false ∧
    ({ primaryKey := extractPrimaryKey fromRow
       before := filterIgnoredColumns fromRow I
       after := filterIgnoredColumns toRow I } : UpdatedRow) ∈
      (compareRows t fromRows toRows I).updated := by
  have hbeq : Value.beq (Value.intV n) (Value.floatV q) = false := rfl
  have hre : rowsEqual fromRow toRow I = false :=
    rowsEqual_eq_false_of_diff hc h1 h2 hbeq
  refine ⟨hbeq, hre, ?_⟩
  unfold compareRows
  rw [compareRowsOn_updated]
  apply List.mem_filterMap.mpr
  refine ⟨(key, fromRow), mem_of_alookup_eq_some hf, ?_⟩
  simp only [ht, hre]
  rfl

/-- C10 witness: two rows with id 1 whose column v holds the integer 1
on one side and the float 1.0 on the other, matched on key "1", yield
an UpdatedRow. -/
theorem claim10_witness :
    ({ primaryKey := [("id", Value.intV 1)]
       before := [("id", Value.intV 1), ("v", Value.intV 1)]
       after := [("id", Value.intV 1), ("v", Value.floatV 1)] } : UpdatedRow) ∈
      (compareRows "t" [[("id", Value.intV 1), ("v", Value.intV 1)]]
        [[("id", Value.intV 1), ("v", Value.floatV 1)]] []).updated :=
  (claim10_numeric_representation_update "t"
    [[("id", Value.intV 1), ("v", Value.intV 1)]]
    [[("id", Value.intV 1), ("v", Value.floatV 1)]] [] "1" "v"
    [("id", Value.intV 1), ("v", Value.intV 1)]
    [("id", Value.intV 1), ("v", Value.floatV 1)] 1 1
    rfl rfl rfl rfl rfl).2.2

end Snapdiff
